import Mathlib

set_option linter.unusedVariables false

/-! Verification development for the thermodynamic flash engine exercised by the
repository's notebooks.  The notebooks call `FlashPureVLS`, `CEOSGas`, `VirialGas`
and friends; the library code implementing them is not part of the repository
snapshot, so the engine is modelled here from the specification (spec.md §3, §4,
§7), using exact rational arithmetic in place of floating point.  -/

/-- Modelled from the spec: §3 PhaseModel kind discriminator.  The library's
gas/liquid phase classes (`CEOSGas`, `CEOSLiquid`, ...) are missing from the
source snapshot; the spec's §9 closed tagged-variant design is followed. -/
inductive PhaseKind where
  | gas
  | liquid
deriving DecidableEq

/-- Modelled from the spec: §3 PhaseModel.  The missing library phase classes
expose `H(T,P,z)`, `S(T,P,z)`, `V(T,P,z)`, `Cp(T,P,z)`, Gibbs energy and
fugacity as pure functions of the requested state (§4.2); the construction-time
conditions are kept only as a cached seed (`T_init`, `P_init`), per §3
"Stateless between calls except for cached roots at the last-evaluated
(T,P,z)".  For a pure fluid the composition argument is trivial and omitted. -/
structure PhaseModel where
  kind : PhaseKind
  T_init : ℚ
  P_init : ℚ
  Hf : ℚ → ℚ → ℚ
  Sf : ℚ → ℚ → ℚ
  Gf : ℚ → ℚ → ℚ
  Cpf : ℚ → ℚ → ℚ
  Vf : ℚ → ℚ → ℚ
  dVdTf : ℚ → ℚ → ℚ
  fugf : ℚ → ℚ → ℚ

/-- Modelled from the spec: §7 error taxonomy of the missing flash library —
`SpecificationError`, `NumericConvergenceError` (inner EOS root find) and
`FlashConvergenceError` (outer iteration), the latter two reporting the last
iterate and residual. -/
inductive FlashError where
  | specificationError
  | numericConvergence (lastIterate residual : ℚ)
  | flashConvergence (lastIterate residual : ℚ)
deriving DecidableEq

/-- Modelled from the spec: §3 FlashResult resolved state — temperature,
pressure, vapor fraction β and the selected phase. -/
structure EquilibriumState where
  T : ℚ
  P : ℚ
  gas_beta : ℚ
  phase : PhaseKind
deriving DecidableEq

/-- Modelled from the spec: the keyword-argument surface of the missing
`flash()` method — each of `T, P, H, S, V, VF` may or may not be supplied. -/
structure FlashSpecArgs where
  T : Option ℚ
  P : Option ℚ
  H : Option ℚ
  S : Option ℚ
  V : Option ℚ
  VF : Option ℚ
deriving DecidableEq

/-- Modelled from the spec: §9 "isolate as a pure function
`select_root(roots, phase_kind) → V`" — the cubic-EOS root-selection policy of
the missing `CEOSGas`/`CEOSLiquid` evaluation (§4.2): discard non-positive
roots, a liquid phase takes the smallest remaining root, a gas phase the
largest. -/
def select_root (roots : List ℚ) (kind : PhaseKind) : Option ℚ :=
  match roots.filter (fun r => decide (0 < r)) with
  | [] => none
  | x :: xs =>
    match kind with
    | .liquid => some (xs.foldl min x)
    | .gas => some (xs.foldl max x)

/-- Modelled from the spec: §4.2 cubic evaluation step of the missing phase
classes — given the real roots of the cubic, pick the physical one via
`select_root`; an empty selection is an inner `NumericConvergenceError`. -/
def cubicEvaluate (kind : PhaseKind) (roots : List ℚ) : Except FlashError ℚ :=
  match select_root roots kind with
  | some v => .ok v
  | none => .error (.numericConvergence 0 0)

/-- Modelled from the spec: §4.3 outer iteration on T (Newton), fuel bounded.
Succeeds as soon as the residual meets the tolerance; on fuel exhaustion it
reports the last iterate and residual (§7 `FlashConvergenceError` payload). -/
def newtonSolve (fv fd : ℚ → ℚ) (target tol : ℚ) : ℕ → ℚ → Except (ℚ × ℚ) ℚ
  | fuel, t =>
    if |fv t - target| ≤ tol then .ok t
    else
      match fuel with
      | 0 => .error (t, fv t - target)
      | n + 1 => newtonSolve fv fd target tol n (t - (fv t - target) / fd t)

/-- Modelled from the spec: the list of iterates visited by `newtonSolve`,
used to state the bounded-iteration guarantees of §5. -/
def newtonIterates (fv fd : ℚ → ℚ) (target tol : ℚ) : ℕ → ℚ → List ℚ
  | fuel, t =>
    if |fv t - target| ≤ tol then [t]
    else
      match fuel with
      | 0 => [t]
      | n + 1 => t :: newtonIterates fv fd target tol n (t - (fv t - target) / fd t)

/-- Modelled from the spec: §4.3 saturation solve by bisection on a fugacity
residual, fuel bounded, reporting last iterate and residual on exhaustion. -/
def bisectSolve (g : ℚ → ℚ) (tol : ℚ) : ℕ → ℚ → ℚ → Except (ℚ × ℚ) ℚ
  | fuel, lo, hi =>
    let mid := (lo + hi) / 2
    if |g mid| ≤ tol then .ok mid
    else
      match fuel with
      | 0 => .error (mid, g mid)
      | n + 1 =>
        if g lo * g mid ≤ 0 then bisectSolve g tol n lo mid
        else bisectSolve g tol n mid hi

/-- Modelled from the spec: the list of midpoints visited by `bisectSolve`. -/
def bisectIterates (g : ℚ → ℚ) (tol : ℚ) : ℕ → ℚ → ℚ → List ℚ
  | fuel, lo, hi =>
    let mid := (lo + hi) / 2
    if |g mid| ≤ tol then [mid]
    else
      match fuel with
      | 0 => [mid]
      | n + 1 =>
        if g lo * g mid ≤ 0 then mid :: bisectIterates g tol n lo mid
        else mid :: bisectIterates g tol n mid hi

/-- Modelled from the spec: §3 Flasher / the missing `FlashPureVLS` class —
owns one gas PhaseModel, optionally one liquid PhaseModel (the notebooks build
both `liquids=[liquid]` and `liquids=[]` flashers), the bounded iteration
count, the relative convergence tolerance, the outer-iteration temperature
seed and the saturation search brackets. -/
structure FlashPureVLS where
  gas : PhaseModel
  liquid : Option PhaseModel
  maxIter : ℕ
  rtol : ℚ
  T_seed : ℚ
  T_lo : ℚ
  T_hi : ℚ
  P_lo : ℚ
  P_hi : ℚ

/-- Modelled from the spec: phase lookup by kind on the flasher. -/
def FlashPureVLS.phaseOf (f : FlashPureVLS) : PhaseKind → PhaseModel
  | .gas => f.gas
  | .liquid => f.liquid.getD f.gas

/-- Modelled from the spec: §4.3 (T, P) flash of the missing
`FlashPureVLS.flash` — evaluate both candidate phases at (T, P) and commit to
the one with the lower molar Gibbs energy; on an exact tie prefer the gas
phase (the spec's documented deterministic tie-break).  A gas-only flasher is
single-phase by construction. -/
def FlashPureVLS.flashTP (f : FlashPureVLS) (T P : ℚ) : EquilibriumState :=
  match f.liquid with
  | none => ⟨T, P, 1, .gas⟩
  | some liq =>
    if liq.Gf T P < f.gas.Gf T P then ⟨T, P, 0, .liquid⟩ else ⟨T, P, 1, .gas⟩

/-- Modelled from the spec: §4.4 FlashResult `H()` — the enthalpy of the
stored resolved state, a pure function of the state and the flasher's phase
models. -/
def FlashPureVLS.stateH (f : FlashPureVLS) (st : EquilibriumState) : ℚ :=
  (f.phaseOf st.phase).Hf st.T st.P

/-- Modelled from the spec: §4.4 FlashResult `S()`. -/
def FlashPureVLS.stateS (f : FlashPureVLS) (st : EquilibriumState) : ℚ :=
  (f.phaseOf st.phase).Sf st.T st.P

/-- Modelled from the spec: §4.4 FlashResult `V()`. -/
def FlashPureVLS.stateV (f : FlashPureVLS) (st : EquilibriumState) : ℚ :=
  (f.phaseOf st.phase).Vf st.T st.P

/-- Modelled from the spec: §4.3 (P, H) residual and its T-derivative — the
enthalpy obtained by re-solving the (T, P) flash to the stable phase, and that
phase's heat capacity (∂H/∂T at constant P). -/
def FlashPureVLS.phFun (f : FlashPureVLS) (P : ℚ) : (ℚ → ℚ) × (ℚ → ℚ) :=
  (fun T => f.stateH (f.flashTP T P),
   fun T => (f.phaseOf (f.flashTP T P).phase).Cpf T P)

/-- Modelled from the spec: §4.3 (P, S) residual and its T-derivative
(∂S/∂T at constant P equals Cp/T). -/
def FlashPureVLS.psFun (f : FlashPureVLS) (P : ℚ) : (ℚ → ℚ) × (ℚ → ℚ) :=
  (fun T => f.stateS (f.flashTP T P),
   fun T => (f.phaseOf (f.flashTP T P).phase).Cpf T P / T)

/-- Modelled from the spec: §4.3 (P, V) residual and its T-derivative. -/
def FlashPureVLS.pvFun (f : FlashPureVLS) (P : ℚ) : (ℚ → ℚ) × (ℚ → ℚ) :=
  (fun T => f.stateV (f.flashTP T P),
   fun T => (f.phaseOf (f.flashTP T P).phase).dVdTf T P)

/-- Modelled from the spec: §4.3 (P, H) flash — bounded Newton iteration on T
until the re-evaluated enthalpy matches the target within the relative
tolerance; failure to converge is a `FlashConvergenceError` carrying the last
iterate and residual. -/
def FlashPureVLS.flashPH (f : FlashPureVLS) (P H : ℚ) : Except FlashError EquilibriumState :=
  match newtonSolve (f.phFun P).1 (f.phFun P).2 H (f.rtol * |H|) f.maxIter f.T_seed with
  | .ok t => .ok (f.flashTP t P)
  | .error (t, r) => .error (.flashConvergence t r)

/-- Modelled from the spec: §4.3 (P, S) flash, as for (P, H). -/
def FlashPureVLS.flashPS (f : FlashPureVLS) (P S : ℚ) : Except FlashError EquilibriumState :=
  match newtonSolve (f.psFun P).1 (f.psFun P).2 S (f.rtol * |S|) f.maxIter f.T_seed with
  | .ok t => .ok (f.flashTP t P)
  | .error (t, r) => .error (.flashConvergence t r)

/-- Modelled from the spec: §4.3 (P, V) flash, as for (P, H). -/
def FlashPureVLS.flashPV (f : FlashPureVLS) (P V : ℚ) : Except FlashError EquilibriumState :=
  match newtonSolve (f.pvFun P).1 (f.pvFun P).2 V (f.rtol * |V|) f.maxIter f.T_seed with
  | .ok t => .ok (f.flashTP t P)
  | .error (t, r) => .error (.flashConvergence t r)

/-- Modelled from the spec: §4.3 (T, vapor-fraction) flash — a saturation
solve finding the pressure at which gas and liquid fugacities coincide, by
bounded bisection on the fugacity residual.  A vapor fraction outside [0, 1],
or the absence of a liquid phase model, is an invalid specification. -/
def FlashPureVLS.flashTVF (f : FlashPureVLS) (T vf : ℚ) : Except FlashError EquilibriumState :=
  if vf < 0 ∨ 1 < vf then .error .specificationError
  else
    match f.liquid with
    | none => .error .specificationError
    | some liq =>
      match bisectSolve (fun P => f.gas.fugf T P - liq.fugf T P) f.rtol f.maxIter f.P_lo f.P_hi with
      | .ok P => .ok ⟨T, P, vf, if vf = 0 then .liquid else .gas⟩
      | .error (p, r) => .error (.flashConvergence p r)

/-- Modelled from the spec: §4.3 (P, vapor-fraction) flash — the saturation
solve on temperature at the given pressure. -/
def FlashPureVLS.flashPVF (f : FlashPureVLS) (P vf : ℚ) : Except FlashError EquilibriumState :=
  if vf < 0 ∨ 1 < vf then .error .specificationError
  else
    match f.liquid with
    | none => .error .specificationError
    | some liq =>
      match bisectSolve (fun T => f.gas.fugf T P - liq.fugf T P) f.rtol f.maxIter f.T_lo f.T_hi with
      | .ok T => .ok ⟨T, P, vf, if vf = 0 then .liquid else .gas⟩
      | .error (t, r) => .error (.flashConvergence t r)

/-- Modelled from the spec: §4.3 list of supported independent specification
pairs — (T,P), (P,H), (P,S), (P,V), (T,VF), (P,VF); anything else is invalid
or under/over-determined. -/
def validSpecArgs : FlashSpecArgs → Bool
  | ⟨some _, some _, none, none, none, none⟩ => true
  | ⟨none, some _, some _, none, none, none⟩ => true
  | ⟨none, some _, none, some _, none, none⟩ => true
  | ⟨none, some _, none, none, some _, none⟩ => true
  | ⟨some _, none, none, none, none, some _⟩ => true
  | ⟨none, some _, none, none, none, some _⟩ => true
  | _ => false

/-- Modelled from the spec: the missing `FlashPureVLS.flash` entry point —
validate the specification pair first (an invalid pair is a
`SpecificationError` surfaced before any iteration, §7), then dispatch to the
per-pair solver. -/
def FlashPureVLS.flash (f : FlashPureVLS) (a : FlashSpecArgs) : Except FlashError EquilibriumState :=
  match a with
  | ⟨some T, some P, none, none, none, none⟩ => .ok (f.flashTP T P)
  | ⟨none, some P, some H, none, none, none⟩ => f.flashPH P H
  | ⟨none, some P, none, some S, none, none⟩ => f.flashPS P S
  | ⟨none, some P, none, none, some V, none⟩ => f.flashPV P V
  | ⟨some T, none, none, none, none, some vf⟩ => f.flashTVF T vf
  | ⟨none, some P, none, none, none, some vf⟩ => f.flashPVF P vf
  | _ => .error .specificationError

/-- Modelled from the spec: the outer-iteration trace of a `flash` call — the
iterates visited by the per-pair solver; empty for a direct (T, P) evaluation
and for a rejected specification. -/
def FlashPureVLS.flashIterates (f : FlashPureVLS) (a : FlashSpecArgs) : List ℚ :=
  match a with
  | ⟨some _, some _, none, none, none, none⟩ => []
  | ⟨none, some P, some H, none, none, none⟩ =>
    newtonIterates (f.phFun P).1 (f.phFun P).2 H (f.rtol * |H|) f.maxIter f.T_seed
  | ⟨none, some P, none, some S, none, none⟩ =>
    newtonIterates (f.psFun P).1 (f.psFun P).2 S (f.rtol * |S|) f.maxIter f.T_seed
  | ⟨none, some P, none, none, some V, none⟩ =>
    newtonIterates (f.pvFun P).1 (f.pvFun P).2 V (f.rtol * |V|) f.maxIter f.T_seed
  | ⟨some T, none, none, none, none, some vf⟩ =>
    if vf < 0 ∨ 1 < vf then []
    else
      match f.liquid with
      | none => []
      | some liq => bisectIterates (fun P => f.gas.fugf T P - liq.fugf T P) f.rtol f.maxIter f.P_lo f.P_hi
  | ⟨none, some P, none, none, none, some vf⟩ =>
    if vf < 0 ∨ 1 < vf then []
    else
      match f.liquid with
      | none => []
      | some liq => bisectIterates (fun T => f.gas.fugf T P - liq.fugf T P) f.rtol f.maxIter f.T_lo f.T_hi
  | _ => []

/-- Modelled from the spec: §5/§7 "never an approximate best-effort result" —
what it means for a returned state to actually satisfy the requested
specification: a (T,P) result is exactly the (T,P) evaluation; an iterative
result matches the target property within the relative tolerance; a
vapor-fraction result sits on the saturation locus within tolerance. -/
def FlashPureVLS.specSatisfied (f : FlashPureVLS) (a : FlashSpecArgs) (st : EquilibriumState) : Bool :=
  match a with
  | ⟨some T, some P, none, none, none, none⟩ => decide (st = f.flashTP T P)
  | ⟨none, some P, some H, none, none, none⟩ =>
    decide (st.P = P) && decide (|f.stateH st - H| ≤ f.rtol * |H|)
  | ⟨none, some P, none, some S, none, none⟩ =>
    decide (st.P = P) && decide (|f.stateS st - S| ≤ f.rtol * |S|)
  | ⟨none, some P, none, none, some V, none⟩ =>
    decide (st.P = P) && decide (|f.stateV st - V| ≤ f.rtol * |V|)
  | ⟨some T, none, none, none, none, some vf⟩ =>
    decide (st.T = T) && decide (st.gas_beta = vf) &&
      decide (|f.gas.fugf st.T st.P - (f.phaseOf .liquid).fugf st.T st.P| ≤ f.rtol)
  | ⟨none, some P, none, none, none, some vf⟩ =>
    decide (st.P = P) && decide (st.gas_beta = vf) &&
      decide (|f.gas.fugf st.T st.P - (f.phaseOf .liquid).fugf st.T st.P| ≤ f.rtol)
  | _ => false

theorem newtonSolve_ok (fv fd : ℚ → ℚ) (target tol : ℚ) :
    ∀ (fuel : ℕ) (t t' : ℚ), newtonSolve fv fd target tol fuel t = .ok t' →
      |fv t' - target| ≤ tol := by
  intro fuel
  induction fuel with
  | zero =>
    intro t t' h
    rw [newtonSolve] at h
    split at h
    · cases h; assumption
    · cases h
  | succ n ih =>
    intro t t' h
    rw [newtonSolve] at h
    split at h
    · cases h; assumption
    · exact ih _ t' h

theorem newtonSolve_err (fv fd : ℚ → ℚ) (target tol : ℚ) :
    ∀ (fuel : ℕ) (t t' r : ℚ), newtonSolve fv fd target tol fuel t = .error (t', r) →
      r = fv t' - target ∧ ¬ |r| ≤ tol := by
  intro fuel
  induction fuel with
  | zero =>
    intro t t' r h
    rw [newtonSolve] at h
    split at h
    · cases h
    · next hc =>
      cases h
      exact ⟨rfl, hc⟩
  | succ n ih =>
    intro t t' r h
    rw [newtonSolve] at h
    split at h
    · cases h
    · exact ih _ t' r h

theorem newtonSolve_converged (fv fd : ℚ → ℚ) (target tol : ℚ) (fuel : ℕ) (t : ℚ)
    (h : |fv t - target| ≤ tol) : newtonSolve fv fd target tol fuel t = .ok t := by
  cases fuel with
  | zero => rw [newtonSolve]; simp [h]
  | succ n => rw [newtonSolve]; simp [h]

theorem newtonIterates_length (fv fd : ℚ → ℚ) (target tol : ℚ) :
    ∀ (fuel : ℕ) (t : ℚ), (newtonIterates fv fd target tol fuel t).length ≤ fuel + 1 := by
  intro fuel
  induction fuel with
  | zero =>
    intro t
    rw [newtonIterates]
    split
    · simp
    · simp
  | succ n ih =>
    intro t
    rw [newtonIterates]
    split
    · simp
    · simpa using Nat.succ_le_succ (ih _)

theorem bisectSolve_ok (g : ℚ → ℚ) (tol : ℚ) :
    ∀ (fuel : ℕ) (lo hi p : ℚ), bisectSolve g tol fuel lo hi = .ok p →
      |g p| ≤ tol := by
  intro fuel
  induction fuel with
  | zero =>
    intro lo hi p h
    rw [bisectSolve] at h
    split at h
    · cases h; assumption
    · cases h
  | succ n ih =>
    intro lo hi p h
    rw [bisectSolve] at h
    split at h
    · cases h; assumption
    · split at h
      · exact ih _ _ p h
      · exact ih _ _ p h

theorem bisectSolve_err (g : ℚ → ℚ) (tol : ℚ) :
    ∀ (fuel : ℕ) (lo hi p r : ℚ), bisectSolve g tol fuel lo hi = .error (p, r) →
      r = g p ∧ ¬ |r| ≤ tol := by
  intro fuel
  induction fuel with
  | zero =>
    intro lo hi p r h
    rw [bisectSolve] at h
    split at h
    · cases h
    · next hc =>
      cases h
      exact ⟨rfl, hc⟩
  | succ n ih =>
    intro lo hi p r h
    rw [bisectSolve] at h
    split at h
    · cases h
    · split at h
      · exact ih _ _ p r h
      · exact ih _ _ p r h

theorem bisectIterates_length (g : ℚ → ℚ) (tol : ℚ) :
    ∀ (fuel : ℕ) (lo hi : ℚ), (bisectIterates g tol fuel lo hi).length ≤ fuel + 1 := by
  intro fuel
  induction fuel with
  | zero =>
    intro lo hi
    rw [bisectIterates]
    split
    · simp
    · simp
  | succ n ih =>
    intro lo hi
    rw [bisectIterates]
    split
    · simp
    · split
      · simpa using Nat.succ_le_succ (ih _ _)
      · simpa using Nat.succ_le_succ (ih _ _)

theorem foldl_min_le_init (xs : List ℚ) : ∀ x : ℚ, xs.foldl min x ≤ x := by
  induction xs with
  | nil => intro x; simp
  | cons a l ih =>
    intro x
    calc l.foldl min (min x a) ≤ min x a := ih (min x a)
    _ ≤ x := min_le_left _ _

theorem foldl_min_le_mem (xs : List ℚ) : ∀ (x y : ℚ), y ∈ xs → xs.foldl min x ≤ y := by
  induction xs with
  | nil => intro x y hy; cases hy
  | cons a l ih =>
    intro x y hy
    rcases List.mem_cons.mp hy with rfl | hy
    · calc l.foldl min (min x y) ≤ min x y := foldl_min_le_init _ _
      _ ≤ y := min_le_right _ _
    · exact ih (min x a) y hy

theorem foldl_min_mem (xs : List ℚ) : ∀ x : ℚ, xs.foldl min x = x ∨ xs.foldl min x ∈ xs := by
  induction xs with
  | nil => intro x; simp
  | cons a l ih =>
    intro x
    rcases ih (min x a) with h | h
    · rcases min_choice x a with hm | hm
      · left; simp only [List.foldl_cons]; rw [h, hm]
      · right; simp only [List.foldl_cons]; rw [h, hm]; exact List.mem_cons_self _ _
    · right; exact List.mem_cons_of_mem _ h

theorem foldl_max_init_le (xs : List ℚ) : ∀ x : ℚ, x ≤ xs.foldl max x := by
  induction xs with
  | nil => intro x; simp
  | cons a l ih =>
    intro x
    calc x ≤ max x a := le_max_left _ _
    _ ≤ l.foldl max (max x a) := ih (max x a)

theorem foldl_max_mem_le (xs : List ℚ) : ∀ (x y : ℚ), y ∈ xs → y ≤ xs.foldl max x := by
  induction xs with
  | nil => intro x y hy; cases hy
  | cons a l ih =>
    intro x y hy
    rcases List.mem_cons.mp hy with rfl | hy
    · calc y ≤ max x y := le_max_right _ _
      _ ≤ l.foldl max (max x y) := foldl_max_init_le _ _
    · exact ih (max x a) y hy

theorem foldl_max_mem (xs : List ℚ) : ∀ x : ℚ, xs.foldl max x = x ∨ xs.foldl max x ∈ xs := by
  induction xs with
  | nil => intro x; simp
  | cons a l ih =>
    intro x
    rcases ih (max x a) with h | h
    · rcases max_choice x a with hm | hm
      · left; simp only [List.foldl_cons]; rw [h, hm]
      · right; simp only [List.foldl_cons]; rw [h, hm]; exact List.mem_cons_self _ _
    · right; exact List.mem_cons_of_mem _ h

theorem flashTP_beta (f : FlashPureVLS) (T P : ℚ) :
    (f.flashTP T P).gas_beta = 0 ∨ (f.flashTP T P).gas_beta = 1 := by
  rcases hliq : f.liquid with _ | liq
  · simp [FlashPureVLS.flashTP, hliq]
  · simp only [FlashPureVLS.flashTP, hliq]
    split
    · simp
    · simp

theorem flashTP_P (f : FlashPureVLS) (T P : ℚ) : (f.flashTP T P).P = P := by
  rcases hliq : f.liquid with _ | liq
  · simp [FlashPureVLS.flashTP, hliq]
  · simp only [FlashPureVLS.flashTP, hliq]
    split
    · rfl
    · rfl

theorem flashTP_T (f : FlashPureVLS) (T P : ℚ) : (f.flashTP T P).T = T := by
  rcases hliq : f.liquid with _ | liq
  · simp [FlashPureVLS.flashTP, hliq]
  · simp only [FlashPureVLS.flashTP, hliq]
    split
    · rfl
    · rfl

deriving instance DecidableEq for Except

theorem flashTVF_eq (f : FlashPureVLS) (liq : PhaseModel) (T vf : ℚ)
    (hliq : f.liquid = some liq) (hvf : ¬ (vf < 0 ∨ 1 < vf)) :
    f.flashTVF T vf =
      match bisectSolve (fun P => f.gas.fugf T P - liq.fugf T P)
          f.rtol f.maxIter f.P_lo f.P_hi with
      | .ok P => .ok ⟨T, P, vf, if vf = 0 then .liquid else .gas⟩
      | .error (p, r) => .error (.flashConvergence p r) := by
  unfold FlashPureVLS.flashTVF
  rw [if_neg hvf, hliq]

theorem flashPVF_eq (f : FlashPureVLS) (liq : PhaseModel) (P vf : ℚ)
    (hliq : f.liquid = some liq) (hvf : ¬ (vf < 0 ∨ 1 < vf)) :
    f.flashPVF P vf =
      match bisectSolve (fun T => f.gas.fugf T P - liq.fugf T P)
          f.rtol f.maxIter f.T_lo f.T_hi with
      | .ok T => .ok ⟨T, P, vf, if vf = 0 then .liquid else .gas⟩
      | .error (t, r) => .error (.flashConvergence t r) := by
  unfold FlashPureVLS.flashPVF
  rw [if_neg hvf, hliq]

/-- Modelled from the spec: a constant-zero property function, used to fill
the phase-model slots a given concrete example does not exercise. -/
def zf : ℚ → ℚ → ℚ := fun _ _ => 0

/-- Concrete gas phase with linear enthalpy H = 29 T and constant heat
capacity, the ideal-gas instance used by the repository's oxygen notebook
(`IGMIX` flasher). -/
def demoGasH : PhaseModel :=
  ⟨.gas, 298, 100000, fun T _ => 29 * T, zf, zf, fun _ _ => 29, zf, zf, zf⟩

/-- Concrete gas phase with linear entropy S = T/10 and the matching heat
capacity Cp = T/10 (so that ∂S/∂T = Cp/T). -/
def demoGasS : PhaseModel :=
  ⟨.gas, 298, 100000, zf, fun T _ => T / 10, zf, fun T _ => T / 10, zf, zf, zf⟩

/-- Concrete gas phase whose enthalpy is identically zero: any nonzero
enthalpy target is physically unattainable for it. -/
def demoGasConst : PhaseModel :=
  ⟨.gas, 298, 100000, zf, zf, zf, fun _ _ => 1, zf, zf, zf⟩

/-- Concrete liquid phase with Gibbs energy −1, strictly below the demo gas
phases' Gibbs energy 0. -/
def demoLiq : PhaseModel :=
  ⟨.liquid, 298, 100000, zf, zf, fun _ _ => -1, zf, zf, zf, zf⟩

/-- Concrete flasher around a demo phase pair: 20 outer iterations, relative
tolerance 1e-6, temperature seed 298, saturation brackets. -/
def mkFlasher (g : PhaseModel) (l : Option PhaseModel) : FlashPureVLS :=
  ⟨g, l, 20, 1 / 1000000, 298, 100, 1000, 1, 10000000⟩

/-- Concrete flasher around the constant-enthalpy demo gas phase with a zero
iteration budget: any nonzero enthalpy target is physically unattainable for
it, so the outer iteration exhausts its bound at once. -/
def failFlasher : FlashPureVLS :=
  ⟨demoGasConst, none, 0, 1 / 1000000, 298, 100, 1000, 1, 10000000⟩

/-- C3: whenever the root-selection policy returns a root, a liquid phase got
the smallest positive root of the cubic and a gas phase the largest positive
root; in particular when multiple real positive roots exist the liquid choice
is the minimum and the gas choice the maximum among them. -/
theorem C3_select_root_policy (roots : List ℚ) (v w : ℚ)
    (hl : select_root roots .liquid = some v)
    (hg : select_root roots .gas = some w) :
    (v ∈ roots ∧ 0 < v ∧ ∀ r ∈ roots, 0 < r → v ≤ r) ∧
    (w ∈ roots ∧ 0 < w ∧ ∀ r ∈ roots, 0 < r → r ≤ w) := by
  rcases hfil : roots.filter (fun r => decide (0 < r)) with _ | ⟨x, xs⟩
  · rw [select_root, hfil] at hl
    cases hl
  · rw [select_root, hfil] at hl hg
    have hv : v = xs.foldl min x := by cases hl; rfl
    have hw : w = xs.foldl max x := by cases hg; rfl
    have hmemfil : ∀ y : ℚ, y ∈ x :: xs → y ∈ roots ∧ 0 < y := by
      intro y hy
      have : y ∈ roots.filter (fun r => decide (0 < r)) := by rw [hfil]; exact hy
      have h2 := List.mem_filter.mp this
      exact ⟨h2.1, of_decide_eq_true h2.2⟩
    have hposfil : ∀ r : ℚ, r ∈ roots → 0 < r → r ∈ x :: xs := by
      intro r hr hrpos
      have : r ∈ roots.filter (fun r => decide (0 < r)) :=
        List.mem_filter.mpr ⟨hr, decide_eq_true hrpos⟩
      rw [hfil] at this
      exact this
    constructor
    · have hvmem : v ∈ x :: xs := by
        rcases foldl_min_mem xs x with h | h
        · rw [hv, h]; exact List.mem_cons_self _ _
        · rw [hv]; exact List.mem_cons_of_mem _ h
      refine ⟨(hmemfil v hvmem).1, (hmemfil v hvmem).2, ?_⟩
      intro r hr hrpos
      rcases List.mem_cons.mp (hposfil r hr hrpos) with rfl | hrxs
      · rw [hv]; exact foldl_min_le_init _ _
      · rw [hv]; exact foldl_min_le_mem _ _ _ hrxs
    · have hwmem : w ∈ x :: xs := by
        rcases foldl_max_mem xs x with h | h
        · rw [hw, h]; exact List.mem_cons_self _ _
        · rw [hw]; exact List.mem_cons_of_mem _ h
      refine ⟨(hmemfil w hwmem).1, (hmemfil w hwmem).2, ?_⟩
      intro r hr hrpos
      rcases List.mem_cons.mp (hposfil r hr hrpos) with rfl | hrxs
      · rw [hw]; exact foldl_max_init_le _ _
      · rw [hw]; exact foldl_max_mem_le _ _ _ hrxs

/-- C3 witness: on the three positive roots 4, 1, 3 the liquid phase selects
1 and the gas phase selects 4. -/
theorem C3_select_root_policy_witness :
    (((1 : ℚ) ∈ [(4 : ℚ), 1, 3] ∧ 0 < (1 : ℚ) ∧ ∀ r ∈ [(4 : ℚ), 1, 3], 0 < r → 1 ≤ r) ∧
     ((4 : ℚ) ∈ [(4 : ℚ), 1, 3] ∧ 0 < (4 : ℚ) ∧ ∀ r ∈ [(4 : ℚ), 1, 3], 0 < r → r ≤ 4)) :=
  C3_select_root_policy [4, 1, 3] 1 4 (by decide) (by decide)

/-- C2: a flash request whose specification variables do not form one of the
supported independent pairs is rejected with `SpecificationError` before any
outer iteration starts — the call returns the error for every flasher
configuration and its iteration trace is empty, so no retry is performed. -/
theorem C2_invalid_spec_rejected (f : FlashPureVLS) (a : FlashSpecArgs)
    (h : validSpecArgs a = false) :
    f.flash a = .error .specificationError ∧ f.flashIterates a = [] := by
  rcases a with ⟨T, P, H, S, V, VF⟩
  cases T <;> cases P <;> cases H <;> cases S <;> cases V <;> cases VF <;>
    first
      | exact ⟨rfl, rfl⟩
      | simp [validSpecArgs] at h

/-- C2 witness: requesting a flash with the dependent pair (H, S) and no T or
P is rejected with `SpecificationError` and an empty iteration trace. -/
theorem C2_invalid_spec_rejected_witness :
    (mkFlasher demoGasH none).flash ⟨none, none, some 100, some 10, none, none⟩ =
      .error .specificationError ∧
    (mkFlasher demoGasH none).flashIterates ⟨none, none, some 100, some 10, none, none⟩ = [] :=
  C2_invalid_spec_rejected (mkFlasher demoGasH none)
    ⟨none, none, some 100, some 10, none, none⟩ (by decide)

/-- C5: for a (T, P) flash with both candidate phases present, the flash
succeeds and commits to the phase of lower Gibbs energy: a strictly lower
liquid Gibbs energy yields vapor fraction 0 and the liquid phase, while a
gas Gibbs energy at or below the liquid one (including the exact tie) yields
vapor fraction 1 and the gas phase.  `FlashPureVLS.flash` is a pure function
of its arguments, so two calls with identical inputs select the identical
phase. -/
theorem C5_gibbs_phase_selection (f : FlashPureVLS) (liq : PhaseModel) (T P : ℚ)
    (hliq : f.liquid = some liq) :
    ∃ st, f.flash ⟨some T, some P, none, none, none, none⟩ = .ok st ∧
      (liq.Gf T P < f.gas.Gf T P → st.gas_beta = 0 ∧ st.phase = .liquid) ∧
      (f.gas.Gf T P ≤ liq.Gf T P → st.gas_beta = 1 ∧ st.phase = .gas) := by
  refine ⟨f.flashTP T P, rfl, ?_, ?_⟩
  · intro hG
    simp [FlashPureVLS.flashTP, hliq, if_pos hG]
  · intro hG
    have : ¬ liq.Gf T P < f.gas.Gf T P := not_lt.mpr hG
    simp [FlashPureVLS.flashTP, hliq, if_neg this]

/-- C5 witness: with a liquid phase of Gibbs energy −1 against a gas phase of
Gibbs energy 0, the (T, P) flash returns the liquid branch with vapor
fraction 0. -/
theorem C5_gibbs_phase_selection_witness :
    ∃ st, (mkFlasher demoGasH (some demoLiq)).flash
        ⟨some 300, some 100000, none, none, none, none⟩ = .ok st ∧
      st.gas_beta = 0 ∧ st.phase = .liquid := by
  obtain ⟨st, hok, hlo, hhi⟩ :=
    C5_gibbs_phase_selection (mkFlasher demoGasH (some demoLiq)) demoLiq 300 100000 rfl
  exact ⟨st, hok, hlo (by norm_num [demoLiq, demoGasH, mkFlasher, zf])⟩

/-- C9: every successful `flash` call returns a state whose vapor fraction
lies in the closed interval [0, 1]: direct and iterative specifications
resolve to a single phase (β = 0 or β = 1), and vapor-fraction
specifications are validated to lie in [0, 1] before solving. -/
theorem C9_vapor_fraction_bounds (f : FlashPureVLS) (a : FlashSpecArgs)
    (st : EquilibriumState) (h : f.flash a = .ok st) :
    0 ≤ st.gas_beta ∧ st.gas_beta ≤ 1 := by
  have tp : ∀ T P : ℚ, 0 ≤ (f.flashTP T P).gas_beta ∧ (f.flashTP T P).gas_beta ≤ 1 := by
    intro T P
    rcases flashTP_beta f T P with hb | hb <;> rw [hb] <;> norm_num
  unfold FlashPureVLS.flash at h
  split at h
  · cases h; exact tp _ _
  · unfold FlashPureVLS.flashPH at h
    split at h
    · cases h; exact tp _ _
    · cases h
  · unfold FlashPureVLS.flashPS at h
    split at h
    · cases h; exact tp _ _
    · cases h
  · unfold FlashPureVLS.flashPV at h
    split at h
    · cases h; exact tp _ _
    · cases h
  · unfold FlashPureVLS.flashTVF at h
    split at h
    · cases h
    · next hvf =>
      split at h
      · cases h
      · split at h
        · cases h
          push_neg at hvf
          exact ⟨hvf.1, hvf.2⟩
        · cases h
  · unfold FlashPureVLS.flashPVF at h
    split at h
    · cases h
    · next hvf =>
      split at h
      · cases h
      · split at h
        · cases h
          push_neg at hvf
          exact ⟨hvf.1, hvf.2⟩
        · cases h
  · cases h

/-- Two flashers whose solver settings agree and whose phase models agree on
every evaluation function (though possibly not on the cached construction
seeds) produce identical results on every specification. -/
theorem flash_congr (f1 f2 : FlashPureVLS)
    (hmi : f1.maxIter = f2.maxIter) (hrtol : f1.rtol = f2.rtol)
    (hseed : f1.T_seed = f2.T_seed) (hTl : f1.T_lo = f2.T_lo) (hTh : f1.T_hi = f2.T_hi)
    (hPl : f1.P_lo = f2.P_lo) (hPh : f1.P_hi = f2.P_hi)
    (hpo : ∀ k, (f1.phaseOf k).Hf = (f2.phaseOf k).Hf ∧
        (f1.phaseOf k).Sf = (f2.phaseOf k).Sf ∧
        (f1.phaseOf k).Gf = (f2.phaseOf k).Gf ∧
        (f1.phaseOf k).Cpf = (f2.phaseOf k).Cpf ∧
        (f1.phaseOf k).Vf = (f2.phaseOf k).Vf ∧
        (f1.phaseOf k).dVdTf = (f2.phaseOf k).dVdTf ∧
        (f1.phaseOf k).fugf = (f2.phaseOf k).fugf)
    (hliq : f1.liquid = none ↔ f2.liquid = none)
    (a : FlashSpecArgs) : f1.flash a = f2.flash a := by
  have hliqGf : ∀ l1 l2 : PhaseModel, f1.liquid = some l1 → f2.liquid = some l2 →
      l1.Gf = l2.Gf ∧ l1.fugf = l2.fugf := by
    intro l1 l2 h1 h2
    have hG := (hpo .liquid).2.2.1
    have hF := (hpo .liquid).2.2.2.2.2.2
    simp only [FlashPureVLS.phaseOf, h1, h2, Option.getD] at hG hF
    exact ⟨hG, hF⟩
  have hTP : ∀ T P : ℚ, f1.flashTP T P = f2.flashTP T P := by
    intro T P
    rcases h1 : f1.liquid with _ | l1
    · simp only [FlashPureVLS.flashTP, h1, hliq.mp h1]
    · rcases h2 : f2.liquid with _ | l2
      · rw [hliq.mpr h2] at h1
        cases h1
      · have hg : f1.gas.Gf = f2.gas.Gf := (hpo .gas).2.2.1
        have hl : l1.Gf = l2.Gf := (hliqGf l1 l2 h1 h2).1
        simp only [FlashPureVLS.flashTP, h1, h2, hg, hl]
  have hstH : ∀ st, f1.stateH st = f2.stateH st := by
    intro st
    unfold FlashPureVLS.stateH
    rw [(hpo st.phase).1]
  have hstS : ∀ st, f1.stateS st = f2.stateS st := by
    intro st
    unfold FlashPureVLS.stateS
    rw [(hpo st.phase).2.1]
  have hstV : ∀ st, f1.stateV st = f2.stateV st := by
    intro st
    unfold FlashPureVLS.stateV
    rw [(hpo st.phase).2.2.2.2.1]
  have hph : ∀ P : ℚ, f1.phFun P = f2.phFun P := by
    intro P
    unfold FlashPureVLS.phFun
    refine Prod.ext ?_ ?_
    · funext T
      simp only []
      rw [hstH, hTP]
    · funext T
      simp only []
      rw [hTP, (hpo ((f2.flashTP T P).phase)).2.2.2.1]
  have hps : ∀ P : ℚ, f1.psFun P = f2.psFun P := by
    intro P
    unfold FlashPureVLS.psFun
    refine Prod.ext ?_ ?_
    · funext T
      simp only []
      rw [hstS, hTP]
    · funext T
      simp only []
      rw [hTP, (hpo ((f2.flashTP T P).phase)).2.2.2.1]
  have hpv : ∀ P : ℚ, f1.pvFun P = f2.pvFun P := by
    intro P
    unfold FlashPureVLS.pvFun
    refine Prod.ext ?_ ?_
    · funext T
      simp only []
      rw [hstV, hTP]
    · funext T
      simp only []
      rw [hTP, (hpo ((f2.flashTP T P).phase)).2.2.2.2.2.1]
  have hPH : ∀ P H : ℚ, f1.flashPH P H = f2.flashPH P H := by
    intro P H
    unfold FlashPureVLS.flashPH
    rw [hph P, hrtol, hmi, hseed]
    cases hn : newtonSolve (f2.phFun P).1 (f2.phFun P).2 H (f2.rtol * |H|) f2.maxIter f2.T_seed with
    | ok t => simp only [hTP]
    | error e => rfl
  have hPS : ∀ P S : ℚ, f1.flashPS P S = f2.flashPS P S := by
    intro P S
    unfold FlashPureVLS.flashPS
    rw [hps P, hrtol, hmi, hseed]
    cases hn : newtonSolve (f2.psFun P).1 (f2.psFun P).2 S (f2.rtol * |S|) f2.maxIter f2.T_seed with
    | ok t => simp only [hTP]
    | error e => rfl
  have hPV : ∀ P V : ℚ, f1.flashPV P V = f2.flashPV P V := by
    intro P V
    unfold FlashPureVLS.flashPV
    rw [hpv P, hrtol, hmi, hseed]
    cases hn : newtonSolve (f2.pvFun P).1 (f2.pvFun P).2 V (f2.rtol * |V|) f2.maxIter f2.T_seed with
    | ok t => simp only [hTP]
    | error e => rfl
  have hTVF : ∀ T vf : ℚ, f1.flashTVF T vf = f2.flashTVF T vf := by
    intro T vf
    rcases h1 : f1.liquid with _ | l1
    · simp only [FlashPureVLS.flashTVF, h1, hliq.mp h1]
    · rcases h2 : f2.liquid with _ | l2
      · rw [hliq.mpr h2] at h1
        cases h1
      · have hgf : f1.gas.fugf = f2.gas.fugf := (hpo .gas).2.2.2.2.2.2
        have hlf : l1.fugf = l2.fugf := (hliqGf l1 l2 h1 h2).2
        simp only [FlashPureVLS.flashTVF, h1, h2, hgf, hlf, hrtol, hmi, hPl, hPh]
  have hPVF : ∀ P vf : ℚ, f1.flashPVF P vf = f2.flashPVF P vf := by
    intro P vf
    rcases h1 : f1.liquid with _ | l1
    · simp only [FlashPureVLS.flashPVF, h1, hliq.mp h1]
    · rcases h2 : f2.liquid with _ | l2
      · rw [hliq.mpr h2] at h1
        cases h1
      · have hgf : f1.gas.fugf = f2.gas.fugf := (hpo .gas).2.2.2.2.2.2
        have hlf : l1.fugf = l2.fugf := (hliqGf l1 l2 h1 h2).2
        simp only [FlashPureVLS.flashPVF, h1, h2, hgf, hlf, hrtol, hmi, hTl, hTh]
  rcases a with ⟨T, P, H, S, V, VF⟩
  cases T <;> cases P <;> cases H <;> cases S <;> cases V <;> cases VF <;>
    first
      | exact congrArg Except.ok (hTP _ _)
      | exact hPH _ _
      | exact hPS _ _
      | exact hPV _ _
      | exact hTVF _ _
      | exact hPVF _ _
      | rfl

/-- C10: the result of a `flash` call depends only on the specification passed
to the call — replacing the construction-time (T, P) seeds of the gas and
liquid phase objects by arbitrary other values leaves every flash result
unchanged, because evaluation never reads the cached construction state. -/
theorem C10_construction_state_independence (gas : PhaseModel) (liq : Option PhaseModel)
    (n : ℕ) (rtol seed Tl Th Pl Ph Tg Pg Tli Pli : ℚ) (a : FlashSpecArgs) :
    FlashPureVLS.flash
        ⟨{ gas with T_init := Tg, P_init := Pg },
         liq.map (fun m => { m with T_init := Tli, P_init := Pli }),
         n, rtol, seed, Tl, Th, Pl, Ph⟩ a
      = FlashPureVLS.flash ⟨gas, liq, n, rtol, seed, Tl, Th, Pl, Ph⟩ a := by
  cases liq with
  | none =>
    exact flash_congr
      ⟨{ gas with T_init := Tg, P_init := Pg }, none, n, rtol, seed, Tl, Th, Pl, Ph⟩
      ⟨gas, none, n, rtol, seed, Tl, Th, Pl, Ph⟩
      rfl rfl rfl rfl rfl rfl rfl
      (fun k => by cases k <;> exact ⟨rfl, rfl, rfl, rfl, rfl, rfl, rfl⟩)
      (by simp) a
  | some m =>
    exact flash_congr
      ⟨{ gas with T_init := Tg, P_init := Pg },
       some { m with T_init := Tli, P_init := Pli }, n, rtol, seed, Tl, Th, Pl, Ph⟩
      ⟨gas, some m, n, rtol, seed, Tl, Th, Pl, Ph⟩
      rfl rfl rfl rfl rfl rfl rfl
      (fun k => by cases k <;> exact ⟨rfl, rfl, rfl, rfl, rfl, rfl, rfl⟩)
      (by simp) a

/-- C9 witness: the (T, P) flash of the ideal-gas demo flasher at
(300, 100000) succeeds with vapor fraction 1, which lies in [0, 1]. -/
theorem C9_vapor_fraction_bounds_witness :
    0 ≤ (⟨300, 100000, 1, .gas⟩ : EquilibriumState).gas_beta ∧
      (⟨300, 100000, 1, .gas⟩ : EquilibriumState).gas_beta ≤ 1 :=
  C9_vapor_fraction_bounds (mkFlasher demoGasH none)
    ⟨some 300, some 100000, none, none, none, none⟩ ⟨300, 100000, 1, .gas⟩ rfl

/-- C6: every specification with an outer iteration — the (P,H)/(P,S)/(P,V)
temperature searches and the (T,VF)/(P,VF) saturation bisections — either
converges, returning a state matching the target property within tolerance,
or, when the bounded iteration fails to bracket or converge (e.g. the target
is unattainable), returns `FlashConvergenceError` with the last iterate and a
residual still outside tolerance; a failing call never returns a numeric
result. -/
theorem C6_convergence_failure_typed (f : FlashPureVLS) (T P H S V vf : ℚ) :
    ((∃ st, f.flash ⟨none, some P, some H, none, none, none⟩ = .ok st ∧
        |f.stateH st - H| ≤ f.rtol * |H|) ∨
      (∃ t r, f.flash ⟨none, some P, some H, none, none, none⟩ =
          .error (.flashConvergence t r) ∧ ¬ |r| ≤ f.rtol * |H|)) ∧
    ((∃ st, f.flash ⟨none, some P, none, some S, none, none⟩ = .ok st ∧
        |f.stateS st - S| ≤ f.rtol * |S|) ∨
      (∃ t r, f.flash ⟨none, some P, none, some S, none, none⟩ =
          .error (.flashConvergence t r) ∧ ¬ |r| ≤ f.rtol * |S|)) ∧
    ((∃ st, f.flash ⟨none, some P, none, none, some V, none⟩ = .ok st ∧
        |f.stateV st - V| ≤ f.rtol * |V|) ∨
      (∃ t r, f.flash ⟨none, some P, none, none, some V, none⟩ =
          .error (.flashConvergence t r) ∧ ¬ |r| ≤ f.rtol * |V|)) ∧
    (∀ liq, f.liquid = some liq → ¬ (vf < 0 ∨ 1 < vf) →
      (∃ st, f.flash ⟨some T, none, none, none, none, some vf⟩ = .ok st ∧
          |f.gas.fugf T st.P - liq.fugf T st.P| ≤ f.rtol) ∨
      (∃ p r, f.flash ⟨some T, none, none, none, none, some vf⟩ =
          .error (.flashConvergence p r) ∧ ¬ |r| ≤ f.rtol)) ∧
    (∀ liq, f.liquid = some liq → ¬ (vf < 0 ∨ 1 < vf) →
      (∃ st, f.flash ⟨none, some P, none, none, none, some vf⟩ = .ok st ∧
          |f.gas.fugf st.T P - liq.fugf st.T P| ≤ f.rtol) ∨
      (∃ t r, f.flash ⟨none, some P, none, none, none, some vf⟩ =
          .error (.flashConvergence t r) ∧ ¬ |r| ≤ f.rtol)) := by
  refine ⟨?_, ?_, ?_, ?_, ?_⟩
  · have hred : f.flash ⟨none, some P, some H, none, none, none⟩ = f.flashPH P H := rfl
    rw [hred]
    unfold FlashPureVLS.flashPH
    cases hn : newtonSolve (f.phFun P).1 (f.phFun P).2 H (f.rtol * |H|) f.maxIter f.T_seed with
    | ok t =>
      left
      refine ⟨f.flashTP t P, rfl, ?_⟩
      have hres := newtonSolve_ok _ _ _ _ _ _ _ hn
      exact hres
    | error e =>
      right
      obtain ⟨t, r⟩ := e
      exact ⟨t, r, rfl, (newtonSolve_err _ _ _ _ _ _ _ _ hn).2⟩
  · have hred : f.flash ⟨none, some P, none, some S, none, none⟩ = f.flashPS P S := rfl
    rw [hred]
    unfold FlashPureVLS.flashPS
    cases hn : newtonSolve (f.psFun P).1 (f.psFun P).2 S (f.rtol * |S|) f.maxIter f.T_seed with
    | ok t =>
      left
      refine ⟨f.flashTP t P, rfl, ?_⟩
      have hres := newtonSolve_ok _ _ _ _ _ _ _ hn
      exact hres
    | error e =>
      right
      obtain ⟨t, r⟩ := e
      exact ⟨t, r, rfl, (newtonSolve_err _ _ _ _ _ _ _ _ hn).2⟩
  · have hred : f.flash ⟨none, some P, none, none, some V, none⟩ = f.flashPV P V := rfl
    rw [hred]
    unfold FlashPureVLS.flashPV
    cases hn : newtonSolve (f.pvFun P).1 (f.pvFun P).2 V (f.rtol * |V|) f.maxIter f.T_seed with
    | ok t =>
      left
      refine ⟨f.flashTP t P, rfl, ?_⟩
      have hres := newtonSolve_ok _ _ _ _ _ _ _ hn
      exact hres
    | error e =>
      right
      obtain ⟨t, r⟩ := e
      exact ⟨t, r, rfl, (newtonSolve_err _ _ _ _ _ _ _ _ hn).2⟩
  · intro liq hliq hvf
    have hred : f.flash ⟨some T, none, none, none, none, some vf⟩ = f.flashTVF T vf := rfl
    rw [hred, flashTVF_eq f liq T vf hliq hvf]
    cases hb : bisectSolve (fun p => f.gas.fugf T p - liq.fugf T p)
        f.rtol f.maxIter f.P_lo f.P_hi with
    | ok p =>
      left
      refine ⟨⟨T, p, vf, if vf = 0 then .liquid else .gas⟩, rfl, ?_⟩
      have hres := bisectSolve_ok _ _ _ _ _ _ hb
      exact hres
    | error e =>
      right
      obtain ⟨p, r⟩ := e
      exact ⟨p, r, rfl, (bisectSolve_err _ _ _ _ _ _ _ hb).2⟩
  · intro liq hliq hvf
    have hred : f.flash ⟨none, some P, none, none, none, some vf⟩ = f.flashPVF P vf := rfl
    rw [hred, flashPVF_eq f liq P vf hliq hvf]
    cases hb : bisectSolve (fun t => f.gas.fugf t P - liq.fugf t P)
        f.rtol f.maxIter f.T_lo f.T_hi with
    | ok t =>
      left
      refine ⟨⟨t, P, vf, if vf = 0 then .liquid else .gas⟩, rfl, ?_⟩
      have hres := bisectSolve_ok _ _ _ _ _ _ hb
      exact hres
    | error e =>
      right
      obtain ⟨t, r⟩ := e
      exact ⟨t, r, rfl, (bisectSolve_err _ _ _ _ _ _ _ hb).2⟩

/-- C6 witness: for the constant-enthalpy flasher, the enthalpy target 100 is
outside the attainable range (the phase's enthalpy is identically zero), so
the (P,H) flash fails to converge and returns `FlashConvergenceError` with an
out-of-tolerance residual, never a numeric result. -/
theorem C6_convergence_failure_typed_witness :
    ∃ t r, failFlasher.flash ⟨none, some 100000, some 100, none, none, none⟩ =
        .error (.flashConvergence t r) ∧ ¬ |r| ≤ failFlasher.rtol * |(100 : ℚ)| := by
  rcases (C6_convergence_failure_typed failFlasher 300 100000 100 0 0 0).1 with
    ⟨st, hok, hres⟩ | herr
  · exfalso
    have h0 : failFlasher.stateH st = 0 := by
      cases hp : st.phase <;>
        simp [FlashPureVLS.stateH, FlashPureVLS.phaseOf, failFlasher, demoGasConst, zf, hp]
    rw [h0] at hres
    norm_num [failFlasher] at hres
  · exact herr

/-- C4: when a (P, S) flash whose entropy target was taken from a previously
solved (T, P) state converges, re-evaluating the entropy at the returned
state reproduces the target within the relative convergence tolerance. -/
theorem C4_isentropic_entropy_conserved (f : FlashPureVLS) (T0 P0 P : ℚ)
    (st : EquilibriumState)
    (h : f.flash ⟨none, some P, none, some (f.stateS (f.flashTP T0 P0)), none, none⟩ = .ok st) :
    |f.stateS st - f.stateS (f.flashTP T0 P0)| ≤
      f.rtol * |f.stateS (f.flashTP T0 P0)| := by
  have hred : f.flash ⟨none, some P, none, some (f.stateS (f.flashTP T0 P0)), none, none⟩
      = f.flashPS P (f.stateS (f.flashTP T0 P0)) := rfl
  rw [hred] at h
  unfold FlashPureVLS.flashPS at h
  cases hn : newtonSolve (f.psFun P).1 (f.psFun P).2 (f.stateS (f.flashTP T0 P0))
      (f.rtol * |f.stateS (f.flashTP T0 P0)|) f.maxIter f.T_seed with
  | ok t =>
    rw [hn] at h
    cases h
    exact newtonSolve_ok (f.psFun P).1 (f.psFun P).2 (f.stateS (f.flashTP T0 P0))
      (f.rtol * |f.stateS (f.flashTP T0 P0)|) f.maxIter f.T_seed t hn
  | error e =>
    rw [hn] at h
    obtain ⟨t, r⟩ := e
    cases h

/-- C4 witness: the demo flasher with S = T/10 flashed at (T, P) = (298, 1e5)
has S = 29.8; the (P, S) flash at P = 2e5 with that target converges at the
seed temperature 298 K and reproduces the entropy exactly. -/
theorem C4_isentropic_entropy_conserved_witness :
    |(mkFlasher demoGasS none).stateS ⟨298, 200000, 1, .gas⟩ -
        (mkFlasher demoGasS none).stateS ((mkFlasher demoGasS none).flashTP 298 100000)| ≤
      (mkFlasher demoGasS none).rtol *
        |(mkFlasher demoGasS none).stateS ((mkFlasher demoGasS none).flashTP 298 100000)| := by
  apply C4_isentropic_entropy_conserved (mkFlasher demoGasS none) 298 100000 200000
  have htarget : (mkFlasher demoGasS none).stateS ((mkFlasher demoGasS none).flashTP 298 100000)
      = 298 / 10 := by
    norm_num [FlashPureVLS.stateS, FlashPureVLS.flashTP, FlashPureVLS.phaseOf, mkFlasher, demoGasS]
  have hconv : newtonSolve ((mkFlasher demoGasS none).psFun 200000).1
      ((mkFlasher demoGasS none).psFun 200000).2 (298 / 10)
      ((mkFlasher demoGasS none).rtol * |(298 : ℚ) / 10|)
      (mkFlasher demoGasS none).maxIter (mkFlasher demoGasS none).T_seed
      = .ok (mkFlasher demoGasS none).T_seed := by
    apply newtonSolve_converged
    norm_num [FlashPureVLS.psFun, FlashPureVLS.stateS, FlashPureVLS.flashTP,
      FlashPureVLS.phaseOf, mkFlasher, demoGasS]
  show (mkFlasher demoGasS none).flashPS 200000
      ((mkFlasher demoGasS none).stateS ((mkFlasher demoGasS none).flashTP 298 100000))
      = .ok ⟨298, 200000, 1, .gas⟩
  rw [htarget]
  unfold FlashPureVLS.flashPS
  rw [hconv]
  norm_num [FlashPureVLS.flashTP, mkFlasher]

/-- C1: round-trip for an arbitrary flasher — any gas+liquid pair, any EOS
enthalpy.  Part one: for every state produced by a (T, P) flash, whenever the
(P, H) flash at that state's enthalpy converges, the recovered temperature is
within the configured relative tolerance of T, provided the composite
stable-phase enthalpy curve at this pressure is relatively at least as steep
as linear (reverse-Lipschitz constant c with |H(T)| ≤ c·|T|) — the transfer
the engine's enthalpy-residual convergence criterion requires, and one
satisfied by cubic-EOS enthalpies away from degeneracies, with phase
switching between the gas and liquid branches allowed.  Part two: when the
composite enthalpy is exactly linear with positive slope (the ideal-gas
instance the oxygen notebook builds), the round trip moreover always
succeeds within one Newton step and recovers T within the tolerance. -/
theorem C1_tp_ph_roundtrip (f : FlashPureVLS) (T P : ℚ) :
    (∀ c : ℚ, 0 < c → 0 ≤ f.rtol →
      (∀ t : ℚ, c * |t - T| ≤ |(f.phFun P).1 t - (f.phFun P).1 T|) →
      |(f.phFun P).1 T| ≤ c * |T| →
      ∀ st2 : EquilibriumState,
        f.flash ⟨none, some P, some (f.stateH (f.flashTP T P)), none, none, none⟩ = .ok st2 →
        |st2.T - T| ≤ f.rtol * |T|) ∧
    (∀ Cp : ℚ,
      (∀ t : ℚ, (f.phFun P).1 t = Cp * t) →
      (∀ t : ℚ, (f.phFun P).2 t = Cp) →
      0 < Cp → 0 ≤ f.rtol → 1 ≤ f.maxIter →
      ∃ st1 st2,
        f.flash ⟨some T, some P, none, none, none, none⟩ = .ok st1 ∧
        f.flash ⟨none, some P, some (f.stateH st1), none, none, none⟩ = .ok st2 ∧
        |st2.T - T| ≤ f.rtol * |T|) := by
  constructor
  · intro c hc hrtol hinv hcond st2 h2
    have hred : f.flash ⟨none, some P, some (f.stateH (f.flashTP T P)), none, none, none⟩
        = f.flashPH P (f.stateH (f.flashTP T P)) := rfl
    rw [hred] at h2
    unfold FlashPureVLS.flashPH at h2
    cases hn : newtonSolve (f.phFun P).1 (f.phFun P).2 (f.stateH (f.flashTP T P))
        (f.rtol * |f.stateH (f.flashTP T P)|) f.maxIter f.T_seed with
    | ok t =>
      rw [hn] at h2
      cases h2
      rw [flashTP_T]
      have hres := newtonSolve_ok _ _ _ _ _ _ _ hn
      have hres2 : |(f.phFun P).1 t - (f.phFun P).1 T| ≤ f.rtol * |(f.phFun P).1 T| := hres
      have h3 : c * |t - T| ≤ f.rtol * (c * |T|) :=
        le_trans (hinv t) (le_trans hres2 (mul_le_mul_of_nonneg_left hcond hrtol))
      have h4 : c * |t - T| ≤ c * (f.rtol * |T|) := by
        calc c * |t - T| ≤ f.rtol * (c * |T|) := h3
        _ = c * (f.rtol * |T|) := by ring
      exact le_of_mul_le_mul_left h4 hc
    | error e =>
      rw [hn] at h2
      obtain ⟨t, r⟩ := e
      cases h2
  · intro Cp hfv hfd hpos hrtol hiter
    have hCp0 : Cp ≠ 0 := ne_of_gt hpos
    have htol : 0 ≤ f.rtol * |Cp * T| := mul_nonneg hrtol (abs_nonneg _)
    obtain ⟨k, hk⟩ : ∃ k, f.maxIter = k + 1 := ⟨f.maxIter - 1, by omega⟩
    have hsolve : ∃ t', newtonSolve (f.phFun P).1 (f.phFun P).2 (Cp * T)
        (f.rtol * |Cp * T|) f.maxIter f.T_seed = .ok t' ∧ |t' - T| ≤ f.rtol * |T| := by
      by_cases hcnv : |(f.phFun P).1 f.T_seed - Cp * T| ≤ f.rtol * |Cp * T|
      · refine ⟨f.T_seed, newtonSolve_converged _ _ _ _ _ _ hcnv, ?_⟩
        rw [hfv] at hcnv
        have e1 : |Cp * f.T_seed - Cp * T| = Cp * |f.T_seed - T| := by
          rw [← mul_sub, abs_mul, abs_of_pos hpos]
        have e2 : f.rtol * |Cp * T| = Cp * (f.rtol * |T|) := by
          rw [abs_mul, abs_of_pos hpos]
          ring
        rw [e1, e2] at hcnv
        exact le_of_mul_le_mul_left hcnv hpos
      · have ht1 : f.T_seed - ((f.phFun P).1 f.T_seed - Cp * T) / (f.phFun P).2 f.T_seed = T := by
          rw [hfv, hfd]
          field_simp
          ring
        refine ⟨T, ?_, by simp [mul_nonneg hrtol (abs_nonneg (T : ℚ))]⟩
        rw [hk, newtonSolve, if_neg hcnv, ht1]
        apply newtonSolve_converged
        rw [hfv]
        simpa using htol
    obtain ⟨t', hsol, hbound⟩ := hsolve
    refine ⟨f.flashTP T P, f.flashTP t' P, rfl, ?_, ?_⟩
    · show f.flashPH P (f.stateH (f.flashTP T P)) = .ok (f.flashTP t' P)
      have hst : f.stateH (f.flashTP T P) = Cp * T := hfv T
      rw [hst]
      unfold FlashPureVLS.flashPH
      rw [hsol]
    · rw [flashTP_T]
      exact hbound

/-- C1 witness: the ideal demo flasher (composite enthalpy 29·T) both
round-trips (T, P) = (300, 1e5) successfully through part two, and its
converged (P, H) flash satisfies the conditioned accuracy bound of part one
with c = 29. -/
theorem C1_tp_ph_roundtrip_witness :
    ∃ st2,
      (mkFlasher demoGasH none).flash
          ⟨none, some 100000,
           some ((mkFlasher demoGasH none).stateH
             ((mkFlasher demoGasH none).flashTP 300 100000)), none, none, none⟩ = .ok st2 ∧
      |st2.T - 300| ≤ (mkFlasher demoGasH none).rtol * |(300 : ℚ)| := by
  have hfv : ∀ u : ℚ, ((mkFlasher demoGasH none).phFun 100000).1 u = 29 * u := by
    intro u
    simp [FlashPureVLS.phFun, FlashPureVLS.stateH, FlashPureVLS.flashTP,
      FlashPureVLS.phaseOf, mkFlasher, demoGasH]
  have hfd : ∀ u : ℚ, ((mkFlasher demoGasH none).phFun 100000).2 u = 29 := by
    intro u
    simp [FlashPureVLS.phFun, FlashPureVLS.flashTP, FlashPureVLS.phaseOf, mkFlasher, demoGasH]
  obtain ⟨st1, st2, h1, h2, hb⟩ :=
    (C1_tp_ph_roundtrip (mkFlasher demoGasH none) 300 100000).2 29 hfv hfd
      (by norm_num) (by norm_num [mkFlasher]) (by norm_num [mkFlasher])
  have hst1 : st1 = (mkFlasher demoGasH none).flashTP 300 100000 := by
    have h1r : Except.ok ((mkFlasher demoGasH none).flashTP 300 100000) = Except.ok st1 := h1
    exact (Except.ok.inj h1r).symm
  rw [hst1] at h2
  have hinv : ∀ t : ℚ, 29 * |t - 300| ≤
      |((mkFlasher demoGasH none).phFun 100000).1 t -
        ((mkFlasher demoGasH none).phFun 100000).1 300| := by
    intro t
    rw [hfv, hfv, show (29 : ℚ) * t - 29 * 300 = 29 * (t - 300) by ring, abs_mul]
    norm_num
  have hcond : |((mkFlasher demoGasH none).phFun 100000).1 300| ≤ 29 * |(300 : ℚ)| := by
    rw [hfv]
    norm_num
  exact ⟨st2, h2, (C1_tp_ph_roundtrip (mkFlasher demoGasH none) 300 100000).1 29
    (by norm_num) (by norm_num [mkFlasher]) hinv hcond st2 h2⟩

/-- C8: every `flash` call terminates within its bound — the outer-iteration
trace of any call visits at most `maxIter + 1` iterates — and a call never
returns a best-effort approximation: whenever it returns `ok`, the returned
state satisfies the requested specification (exactly for (T, P), within the
convergence tolerance for the iterative pairs); exceeding the bound yields a
typed error instead (see the convergence-failure theorem). -/
theorem C8_bounded_iteration_no_best_effort (f : FlashPureVLS) (a : FlashSpecArgs) :
    (f.flashIterates a).length ≤ f.maxIter + 1 ∧
      ∀ st, f.flash a = .ok st → f.specSatisfied a st = true := by
  constructor
  · unfold FlashPureVLS.flashIterates
    split
    · simp
    · exact newtonIterates_length _ _ _ _ _ _
    · exact newtonIterates_length _ _ _ _ _ _
    · exact newtonIterates_length _ _ _ _ _ _
    · split
      · simp
      · split
        · simp
        · exact bisectIterates_length _ _ _ _ _
    · split
      · simp
      · split
        · simp
        · exact bisectIterates_length _ _ _ _ _
    · simp
  · intro st h
    unfold FlashPureVLS.flash at h
    split at h
    · cases h
      unfold FlashPureVLS.specSatisfied
      simp
    · unfold FlashPureVLS.flashPH at h
      split at h
      · next t hn =>
        cases h
        unfold FlashPureVLS.specSatisfied
        simp only [Bool.and_eq_true, decide_eq_true_eq]
        have hres := newtonSolve_ok _ _ _ _ _ _ _ hn
        exact ⟨flashTP_P _ _ _, hres⟩
      · cases h
    · unfold FlashPureVLS.flashPS at h
      split at h
      · next t hn =>
        cases h
        unfold FlashPureVLS.specSatisfied
        simp only [Bool.and_eq_true, decide_eq_true_eq]
        have hres := newtonSolve_ok _ _ _ _ _ _ _ hn
        exact ⟨flashTP_P _ _ _, hres⟩
      · cases h
    · unfold FlashPureVLS.flashPV at h
      split at h
      · next t hn =>
        cases h
        unfold FlashPureVLS.specSatisfied
        simp only [Bool.and_eq_true, decide_eq_true_eq]
        have hres := newtonSolve_ok _ _ _ _ _ _ _ hn
        exact ⟨flashTP_P _ _ _, hres⟩
      · cases h
    · unfold FlashPureVLS.flashTVF at h
      split at h
      · cases h
      · split at h
        · cases h
        · next liq hliq =>
          split at h
          · next p hb =>
            cases h
            unfold FlashPureVLS.specSatisfied
            simp only [Bool.and_eq_true, decide_eq_true_eq]
            refine ⟨⟨by trivial, by trivial⟩, ?_⟩
            have hg := bisectSolve_ok _ _ _ _ _ _ hb
            simpa [FlashPureVLS.phaseOf, hliq] using hg
          · cases h
    · unfold FlashPureVLS.flashPVF at h
      split at h
      · cases h
      · split at h
        · cases h
        · next liq hliq =>
          split at h
          · next t hb =>
            cases h
            unfold FlashPureVLS.specSatisfied
            simp only [Bool.and_eq_true, decide_eq_true_eq]
            refine ⟨⟨by trivial, by trivial⟩, ?_⟩
            have hg := bisectSolve_ok _ _ _ _ _ _ hb
            simpa [FlashPureVLS.phaseOf, hliq] using hg
          · cases h
    · cases h

/-- C8 witness: for the ideal demo flasher and the (T, P) specification
(300, 1e5), the iteration trace is within the bound and the returned state
satisfies the specification. -/
theorem C8_bounded_iteration_no_best_effort_witness :
    ((mkFlasher demoGasH none).flashIterates ⟨some 300, some 100000, none, none, none, none⟩).length
        ≤ (mkFlasher demoGasH none).maxIter + 1 ∧
      (mkFlasher demoGasH none).specSatisfied ⟨some 300, some 100000, none, none, none, none⟩
        ⟨300, 100000, 1, .gas⟩ = true :=
  ⟨(C8_bounded_iteration_no_best_effort (mkFlasher demoGasH none)
      ⟨some 300, some 100000, none, none, none, none⟩).1,
   (C8_bounded_iteration_no_best_effort (mkFlasher demoGasH none)
      ⟨some 300, some 100000, none, none, none, none⟩).2 ⟨300, 100000, 1, .gas⟩ rfl⟩
